import Mathlib

/-!
Shallow embedding of the nx-tooling ESLint flat-config utility
(src/libs/tools/nx-tools/src/lib/eslint-tsmorph-util.ts) and the
import-declaration utility (ImportTsMorphUtil).
-/

namespace NxTooling

/-- JS values produced by decoding (`parsePropertyValue` and friends).
A fallback "opaque text" value is an ordinary JS string, so it is
represented by `vStr` as well. `vDynImport p` models the tagged object
`\x7b __dynamicImport: p \x7d`. Numbers are modelled as integers (the
numeric literals handled by the utility). -/
inductive Value where
  | vStr (s : String)
  | vNum (n : Int)
  | vBool (b : Bool)
  | vNull
  | vUndefined
  | vArr (vs : List Value)
  | vObj (fields : List (String × Value))
  | vDynImport (path : String)
deriving Inhabited

mutual
/-- ts-morph expression nodes, restricted to the shapes the utility
inspects.  Any other expression is `other t` carrying its source text
(only its text is ever used by the utility). -/
inductive Expr where
  | strLit (s : String)
  | numLit (n : Int)
  | trueKw
  | falseKw
  | nullKw
  | ident (name : String)
  | arrayLit (elems : List Expr)
  | objectLit (ms : List Member)
  | awaitExpr (e : Expr)
  | callExpr (callee : Expr) (args : List Expr)
  | importKw
  | other (text : String)
deriving Inhabited

/-- Members of an object literal: property assignments (the `name` is the
raw source text of the name node, quotes included when present) and
spread assignments. -/
inductive Member where
  | propAssign (name : String) (init : Expr)
  | spreadAssign (e : Expr)
deriving Inhabited
end

mutual
/-- Models `node.getText()`: the source text of an expression.  The model
renders canonical text; `other` carries its text verbatim. -/
def getText : Expr → String
  | .strLit s => "'" ++ s ++ "'"
  | .numLit n => toString n
  | .trueKw => "true"
  | .falseKw => "false"
  | .nullKw => "null"
  | .ident n => n
  | .arrayLit es => "[" ++ String.intercalate ", " (getTextList es) ++ "]"
  | .objectLit ms => "\x7b " ++ String.intercalate ", " (getTextMembers ms) ++ " \x7d"
  | .awaitExpr e => "await " ++ getText e
  | .callExpr c args => getText c ++ "(" ++ String.intercalate ", " (getTextList args) ++ ")"
  | .importKw => "import"
  | .other t => t

def getTextList : List Expr → List String
  | [] => []
  | e :: es => getText e :: getTextList es

def getTextMembers : List Member → List String
  | [] => []
  | .propAssign n e :: ms => (n ++ ": " ++ getText e) :: getTextMembers ms
  | .spreadAssign e :: ms => ("..." ++ getText e) :: getTextMembers ms
end

/-- The quote-stripping replace of property names: one layer of
matching single or double quotes around the name is removed (the name
must have length at least two with equal first and last quote
characters; names never contain newlines, so the regex dot is
unrestricted here). -/
def cleanName (s : String) : String :=
  match s.data with
  | c :: cs =>
    if (c = '\'' ∨ c = '"') ∧ cs.getLast? = some c
    then String.mk cs.dropLast else s
  | [] => s

/-- JS object property read. -/
def jsGet (fields : List (String × Value)) (k : String) : Option Value :=
  (fields.find? (fun f => f.1 == k)).map (fun f => f.2)

/-- JS object property assignment: overwrite the value in place if the
key exists, otherwise append (insertion order preserved). -/
def jsSet : List (String × Value) → String → Value → List (String × Value)
  | [], k, v => [(k, v)]
  | (k', v') :: fs, k, v =>
    if k' == k then (k', v) :: fs else (k', v') :: jsSet fs k v

/-- Models `parseDynamicImport`: the callee must be the import-expression form
or the bare identifier `import`, and the call must have at least one
argument whose first argument is a string literal. -/
def parseDynamicImport (callee : Expr) (args : List Expr) : Option String :=
  let isImportExpression :=
    match callee with
    | .importKw => true
    | .ident n => n == "import"
    | _ => false
  if isImportExpression then
    match args with
    | .strLit s :: _ => some s
    | _ => none
  else none

mutual
/-- Models `parsePropertyValue` on a present node.  A fallback value is the
verbatim source text, which in JS is an ordinary string (`vStr`).
In expression position the token `undefined` parses as an identifier,
so the identifier check covers the UndefinedKeyword branch as well. -/
def parsePropertyValue : Expr → Value
  | .strLit s => .vStr s
  | .numLit n => .vNum n
  | .trueKw => .vBool true
  | .falseKw => .vBool false
  | .nullKw => .vNull
  | .ident n => if n == "undefined" then .vUndefined else .vStr (getText (.ident n))
  | .arrayLit es => .vArr (parseValueList es)
  | .objectLit ms => .vObj (parseObjectLiteral ms [])
  | .awaitExpr e =>
    match e with
    | .callExpr c args =>
      match parseDynamicImport c args with
      | some p => .vDynImport p
      | none => .vStr (getText (.awaitExpr (.callExpr c args)))
    | _ => .vStr (getText (.awaitExpr e))
  | .callExpr c args => .vStr (getText (.callExpr c args))
  | .importKw => .vStr (getText .importKw)
  | .other t => .vStr (getText (.other t))

def parseValueList : List Expr → List Value
  | [] => []
  | e :: es => parsePropertyValue e :: parseValueList es

/-- Models `parseObjectLiteral`: builds the JS record member by member; a spread
member is stored under the reserved `...`-prefixed key with value
`undefined`. -/
def parseObjectLiteral : List Member → List (String × Value) → List (String × Value)
  | [], acc => acc
  | .propAssign n init :: rest, acc =>
    parseObjectLiteral rest (jsSet acc (cleanName n) (parsePropertyValue init))
  | .spreadAssign e :: rest, acc =>
    parseObjectLiteral rest (jsSet acc ("..." ++ getText e) .vUndefined)
end

/-- Models `parsePropertyValue` as called on `getInitializer()` results, which
may be absent (`undefined` in the source). -/
def parsePropertyValueOpt : Option Expr → Value
  | none => .vUndefined
  | some e => parsePropertyValue e

/-- Models `parseRulesObject`: like `parseObjectLiteral`, but a spread member is
stored with value `null`. -/
def parseRulesObject : List Member → List (String × Value) → List (String × Value)
  | [], acc => acc
  | .propAssign n init :: rest, acc =>
    parseRulesObject rest (jsSet acc (cleanName n) (parsePropertyValue init))
  | .spreadAssign e :: rest, acc =>
    parseRulesObject rest (jsSet acc ("..." ++ getText e) .vNull)

/-- The string-literal elements of an element list
(`elements.filter(isStringLiteral).map(getLiteralValue)`). -/
def stringElems : List Expr → List String
  | [] => []
  | .strLit s :: es => s :: stringElems es
  | _ :: es => stringElems es

/-- Models `parseStringArrayProperty`: string elements of an array literal,
`undefined` (`none`) otherwise. -/
def parseStringArrayProperty : Expr → Option (List String)
  | .arrayLit es => some (stringElems es)
  | _ => none

/-- The `files`/`ignores` value stored by `parseConfigObject`. -/
def optFilesValue : Option (List String) → Value
  | some ss => .vArr (ss.map .vStr)
  | none => .vUndefined

/-- The `rules` value stored by `parseConfigObject`
(`parseRulesProperty`). -/
def optRulesValue (init : Expr) : Value :=
  match init with
  | .objectLit rms => .vObj (parseRulesObject rms [])
  | _ => .vUndefined

/-- The `languageOptions` value stored by `parseConfigObject`
(`parseObjectProperty`). -/
def optObjValue (init : Expr) : Value :=
  match init with
  | .objectLit ms => .vObj (parseObjectLiteral ms [])
  | _ => .vUndefined

/-- Models `parseConfigObject`: decodes one object-literal entry of the config
array.  Property names are used raw at this level (not quote-stripped). -/
def parseConfigObject : List Member → List (String × Value) → List (String × Value)
  | [], acc => acc
  | .propAssign n init :: rest, acc =>
    if n == "files" || n == "ignores" then
      parseConfigObject rest (jsSet acc n (optFilesValue (parseStringArrayProperty init)))
    else if n == "rules" then
      parseConfigObject rest (jsSet acc n (optRulesValue init))
    else if n == "languageOptions" then
      parseConfigObject rest (jsSet acc n (optObjValue init))
    else
      parseConfigObject rest (jsSet acc n (parsePropertyValue init))
  | .spreadAssign e :: rest, acc =>
    parseConfigObject rest (jsSet acc ("..." ++ getText e) .vUndefined)

/-- Models `getConfigs`: object-literal elements only, decoded; other elements
are skipped. -/
def getConfigs (state : List Expr) : List (List (String × Value)) :=
  state.filterMap (fun e =>
    match e with
    | .objectLit ms => some (parseConfigObject ms [])
    | _ => none)

/-- The shapes `parsePropertyValue` recognizes; anything else decodes to
its verbatim source text. -/
def recognizedShape : Expr → Bool
  | .strLit _ => true
  | .numLit _ => true
  | .trueKw => true
  | .falseKw => true
  | .nullKw => true
  | .ident n => n == "undefined"
  | .arrayLit _ => true
  | .objectLit _ => true
  | .awaitExpr (.callExpr c args) => (parseDynamicImport c args).isSome
  | _ => false

/-- Lexicographic comparison of character lists by code point (JS string
comparison is by UTF-16 code unit; the two agree on the patterns in the
basic plane handled here). -/
def charsLe : List Char → List Char → Bool
  | [], _ => true
  | _ :: _, [] => false
  | c :: cs, d :: ds =>
    if c = d then charsLe cs ds
    else decide (c.toNat ≤ d.toNat)

/-- String comparison used by the model of `[...].sort()`. -/
def strLe (a b : String) : Bool :=
  charsLe a.data b.data

/-- The sorting relation on pattern strings. -/
abbrev patternLe (a b : String) : Prop :=
  strLe a b = true

/-- Models `[...a].sort()`: default JS sort on strings (lexicographic). -/
def sortPatterns (l : List String) : List String :=
  l.insertionSort patternLe

/-- Models `arraysEqual`: equal length and element-wise equal after sorting
both (the source is generic; the utility applies it to pattern arrays). -/
def arraysEqual (a b : List String) : Bool :=
  a.length == b.length && sortPatterns a == sortPatterns b

/-- JS truthiness of a decoded value. -/
def truthy : Value → Bool
  | .vStr s => !(s == "")
  | .vNum n => !(n == 0)
  | .vBool b => b
  | .vNull => false
  | .vUndefined => false
  | .vArr _ => true
  | .vObj _ => true
  | .vDynImport _ => true

mutual
/-- Models `String(v)` / template interpolation of a decoded value. -/
def jsToString : Value → String
  | .vStr s => s
  | .vNum n => toString n
  | .vBool b => cond b "true" "false"
  | .vNull => "null"
  | .vUndefined => "undefined"
  | .vArr vs => String.intercalate "," (jsToStringArrayElems vs)
  | .vObj _ => "[object Object]"
  | .vDynImport _ => "[object Object]"

def jsToStringArrayElems : List Value → List String
  | [] => []
  | .vNull :: vs => "" :: jsToStringArrayElems vs
  | .vUndefined :: vs => "" :: jsToStringArrayElems vs
  | .vStr s :: vs => s :: jsToStringArrayElems vs
  | .vNum n :: vs => toString n :: jsToStringArrayElems vs
  | .vBool b :: vs => cond b "true" "false" :: jsToStringArrayElems vs
  | .vArr ws :: vs => String.intercalate "," (jsToStringArrayElems ws) :: jsToStringArrayElems vs
  | .vObj _ :: vs => "[object Object]" :: jsToStringArrayElems vs
  | .vDynImport _ :: vs => "[object Object]" :: jsToStringArrayElems vs
end

mutual
/-- Models writing `valueToString v` into the tree and re-parsing it:
every mutation site hands rendered text to ts-morph, which parses it
back into nodes.  Strings render single-quoted with quote escaping, so
the parsed literal carries the original string for the escape-free
strings handled here; a mapping renders spread-marker keys as spread
members and every other key single-quoted; an object carrying a truthy
`__dynamicImport` field renders as an awaited dynamic import. -/
def exprOfValue : Value → Expr
  | .vStr s => .strLit s
  | .vNum n => .numLit n
  | .vBool true => .trueKw
  | .vBool false => .falseKw
  | .vNull => .nullKw
  | .vUndefined => .ident "undefined"
  | .vArr vs => .arrayLit (exprsOfValues vs)
  | .vObj fields =>
    match jsGet fields "__dynamicImport" with
    | some v =>
      if truthy v then .awaitExpr (.callExpr .importKw [.strLit (jsToString v)])
      else .objectLit (membersOfFields fields)
    | none => .objectLit (membersOfFields fields)
  | .vDynImport p =>
    if p == "" then .objectLit [.propAssign "'__dynamicImport'" (.strLit "")]
    else .awaitExpr (.callExpr .importKw [.strLit p])

def exprsOfValues : List Value → List Expr
  | [] => []
  | v :: vs => exprOfValue v :: exprsOfValues vs

def membersOfFields : List (String × Value) → List Member
  | [] => []
  | (k, v) :: fs =>
    if k.startsWith "..." then
      .spreadAssign (.other (k.drop 3)) :: membersOfFields fs
    else
      .propAssign ("'" ++ k ++ "'") (exprOfValue v) :: membersOfFields fs
end

/-- Models `getProperty(name)` on an object literal: the first property
assignment whose raw written name equals `name` exactly, quotes
included (hence the triple-quoted lookups in removeRule/updateRule). -/
def getPropertyM : List Member → String → Option Member
  | [], _ => none
  | .propAssign n init :: ms, key =>
    if n == key then some (.propAssign n init) else getPropertyM ms key
  | .spreadAssign _ :: ms, key => getPropertyM ms key

/-- Models `setInitializer` on the node returned by `getProperty key`:
replace the first matching property assignment's initializer in place. -/
def setInitializerAt : List Member → String → Expr → List Member
  | [], _, _ => []
  | .propAssign n init :: ms, key, e =>
    if n == key then .propAssign n e :: ms
    else .propAssign n init :: setInitializerAt ms key e
  | .spreadAssign s :: ms, key, e => .spreadAssign s :: setInitializerAt ms key e

/-- One element test of `findConfigByFiles`: an object-literal element
whose `files` property assignment holds an array literal whose string
elements compare equal (order-independent) to the requested patterns. -/
def matchesFiles (e : Expr) (files : List String) : Bool :=
  match e with
  | .objectLit ms =>
    match getPropertyM ms "files" with
    | some (.propAssign _ init) =>
      match init with
      | .arrayLit es => arraysEqual (stringElems es) files
      | _ => false
    | _ => false
  | _ => false

/-- Models `findConfigByFiles`: index of the first matching element. -/
def findConfigByFiles (state : List Expr) (files : List String) : Option Nat :=
  state.findIdx? (fun e => matchesFiles e files)

/-- Models `typeof value === "object" && value !== null`. -/
def isJsObjectLike : Value → Bool
  | .vArr _ => true
  | .vObj _ => true
  | .vDynImport _ => true
  | _ => false

/-- Models `Object.entries(value)` for the values reaching the rules merge. -/
def jsEntries : Value → List (String × Value)
  | .vObj fs => fs
  | .vArr vs => vs.enum.map (fun iv => (toString iv.1, iv.2))
  | .vDynImport p => [("__dynamicImport", .vStr p)]
  | _ => []

/-- One rule entry of `updateRulesProperty`: exact-raw-name lookup via
`getProperty(ruleName)`; on a match the value is replaced in place,
otherwise a single-quoted property is appended. -/
def updateRulesStep (rms : List Member) (ruleName : String) (ruleConfig : Value) : List Member :=
  match getPropertyM rms ruleName with
  | some (.propAssign _ _) => setInitializerAt rms ruleName (exprOfValue ruleConfig)
  | _ => rms ++ [.propAssign ("'" ++ ruleName ++ "'") (exprOfValue ruleConfig)]

/-- The rule loop of `updateRulesProperty`. -/
def updateRulesObject (rms : List Member) (newRules : List (String × Value)) : List Member :=
  newRules.foldl (fun rms kv => updateRulesStep rms kv.1 kv.2) rms

/-- Models `updateRulesProperty`: merge into an object-literal initializer,
else replace the whole initializer with the rendered mapping. -/
def updateRulesInit (init : Expr) (newRules : Value) : Expr :=
  match init with
  | .objectLit rms => .objectLit (updateRulesObject rms (jsEntries newRules))
  | _ => exprOfValue newRules

/-- One field of `updateConfigObject`: `getProperty(key)` (raw-name
match); the `rules` key with an object-typed value merges via
`updateRulesProperty`, every other match replaces the initializer
wholesale, and a miss appends a new property with the key written
bare. -/
def updateConfigField (ms : List Member) (key : String) (value : Value) : List Member :=
  match getPropertyM ms key with
  | some (.propAssign _ init) =>
    if key == "rules" && isJsObjectLike value then
      setInitializerAt ms key (updateRulesInit init value)
    else
      setInitializerAt ms key (exprOfValue value)
  | _ => ms ++ [.propAssign key (exprOfValue value)]

/-- Models `updateConfigObject`: fold `updateConfigField` over the entries of
the given config record in order. -/
def updateConfigObject (ms : List Member) (newConfig : List (String × Value)) : List Member :=
  newConfig.foldl (fun ms kv => updateConfigField ms kv.1 kv.2) ms

/-- Models `addNewConfigObject` renders the record with keys written bare and
values via `valueToString`, and appends the parsed element.  (A key
carrying the reserved spread marker would not re-parse as a property
assignment; such keys do not occur in the claims modelled here.) -/
def newConfigExpr (config : List (String × Value)) : Expr :=
  .objectLit (config.map (fun kv => .propAssign kv.1 (exprOfValue kv.2)))

/-- The string elements of a decoded `files` value. -/
def valueStrings : List Value → List String
  | [] => []
  | .vStr s :: vs => s :: valueStrings vs
  | _ :: vs => valueStrings vs

/-- Models `config.files || []` under the `EslintConfigObject` type, whose
`files` field is an array of strings when present; absent or falsy
values yield the empty pattern list. -/
def configFiles (config : List (String × Value)) : List String :=
  match jsGet config "files" with
  | some (.vArr vs) => valueStrings vs
  | _ => []

/-- The members of the object-literal element at index `i`. -/
def membersAt (state : List Expr) (i : Nat) : List Member :=
  match state.getD i (.objectLit []) with
  | .objectLit ms => ms
  | _ => []

/-- Models `addOrUpdateConfig`: update the first element matching the config's
file patterns in place, else append a freshly rendered element. -/
def addOrUpdateConfig (state : List Expr) (config : List (String × Value)) : List Expr :=
  match findConfigByFiles state (configFiles config) with
  | some i => state.set i (.objectLit (updateConfigObject (membersAt state i) config))
  | none => state ++ [newConfigExpr config]

/-- Models `addRule`: no matching entry synthesizes one via `addOrUpdateConfig`;
an existing rules object literal gets the quoted property appended with
no duplicate check; a missing rules property is added; a rules property
that is not an object literal makes the call do nothing. -/
def addRule (state : List Expr) (filePattern : List String) (ruleName : String)
    (ruleConfig : Value) : List Expr :=
  match findConfigByFiles state filePattern with
  | none =>
    addOrUpdateConfig state
      [("files", .vArr (filePattern.map .vStr)), ("rules", .vObj [(ruleName, ruleConfig)])]
  | some i =>
    match getPropertyM (membersAt state i) "rules" with
    | some (.propAssign _ init) =>
      match init with
      | .objectLit rms =>
        state.set i (.objectLit (setInitializerAt (membersAt state i) "rules"
          (.objectLit (rms ++ [.propAssign ("'" ++ ruleName ++ "'") (exprOfValue ruleConfig)]))))
      | _ => state
    | _ =>
      state.set i (.objectLit (membersAt state i ++ [.propAssign "rules"
        (.objectLit [.propAssign ("'" ++ ruleName ++ "'") (exprOfValue ruleConfig)])]))

/-- Models `removeConfig`: delete the first element matching the patterns (the
scan is the same match as `findConfigByFiles`); silently do nothing if
none matches. -/
def removeConfig (state : List Expr) (filePattern : List String) : List Expr :=
  match findConfigByFiles state filePattern with
  | some i => state.eraseIdx i
  | none => state

/-- Property index by exact raw name (the position of the node that
`getProperty` returns). -/
def getPropertyIdx : List Member → String → Option Nat
  | [], _ => none
  | .propAssign n _ :: ms, key =>
    if n == key then some 0 else (getPropertyIdx ms key).map (fun i => i + 1)
  | .spreadAssign _ :: ms, key => (getPropertyIdx ms key).map (fun i => i + 1)

/-- The rule lookup of removeRule/updateRule: raw name first, then
single-quoted, then double-quoted. -/
def getRulePropertyIdx (rms : List Member) (ruleName : String) : Option Nat :=
  (getPropertyIdx rms ruleName) <|>
    (getPropertyIdx rms ("'" ++ ruleName ++ "'")) <|>
      (getPropertyIdx rms ("\"" ++ ruleName ++ "\""))

/-- Models `removeRule`: silently does nothing when the entry, the rules object
literal, or the rule is absent. -/
def removeRule (state : List Expr) (filePattern : List String) (ruleName : String) : List Expr :=
  match findConfigByFiles state filePattern with
  | none => state
  | some i =>
    match getPropertyM (membersAt state i) "rules" with
    | some (.propAssign _ init) =>
      match init with
      | .objectLit rms =>
        match getRulePropertyIdx rms ruleName with
        | some j =>
          state.set i (.objectLit (setInitializerAt (membersAt state i) "rules"
            (.objectLit (rms.eraseIdx j))))
        | none => state
      | _ => state
    | _ => state

/-- Remove the first spread member whose expression text equals the
given text; keep everything else. -/
def removeFirstSpread : List Member → String → List Member
  | [], _ => []
  | .spreadAssign e :: ms, text =>
    if getText e == text then ms else .spreadAssign e :: removeFirstSpread ms text
  | m :: ms, text => m :: removeFirstSpread ms text

/-- Models `addSpreadToRules`: fatal when no entry matches or the entry's rules
property is not a property assignment holding an object literal. -/
def addSpreadToRules (state : List Expr) (filePattern : List String)
    (spreadExpression : String) : Except String (List Expr) :=
  match findConfigByFiles state filePattern with
  | none => .error ("No config found for files: " ++ String.intercalate ", " filePattern)
  | some i =>
    match getPropertyM (membersAt state i) "rules" with
    | some (.propAssign _ init) =>
      match init with
      | .objectLit rms =>
        .ok (state.set i (.objectLit (setInitializerAt (membersAt state i) "rules"
          (.objectLit (rms ++ [.spreadAssign (.other spreadExpression)])))))
      | _ => .error "Rules property must be an object literal"
    | _ => .error "Rules property must be an object literal"

/-- Models `removeSpreadFromRules`: same preconditions as `addSpreadToRules`;
removes the first matching spread member. -/
def removeSpreadFromRules (state : List Expr) (filePattern : List String)
    (spreadExpression : String) : Except String (List Expr) :=
  match findConfigByFiles state filePattern with
  | none => .error ("No config found for files: " ++ String.intercalate ", " filePattern)
  | some i =>
    match getPropertyM (membersAt state i) "rules" with
    | some (.propAssign _ init) =>
      match init with
      | .objectLit rms =>
        .ok (state.set i (.objectLit (setInitializerAt (membersAt state i) "rules"
          (.objectLit (removeFirstSpread rms spreadExpression)))))
      | _ => .error "Rules property must be an object literal"
    | _ => .error "Rules property must be an object literal"

/-- Models `addSpreadToConfig`: fatal when no entry matches; appends a spread
member at the top level of the entry. -/
def addSpreadToConfig (state : List Expr) (filePattern : List String)
    (spreadExpression : String) : Except String (List Expr) :=
  match findConfigByFiles state filePattern with
  | none => .error ("No config found for files: " ++ String.intercalate ", " filePattern)
  | some i =>
    .ok (state.set i (.objectLit (membersAt state i ++ [.spreadAssign (.other spreadExpression)])))

/-- Models `removeSpreadFromConfig`: fatal when no entry matches; removes the
first matching top-level spread member. -/
def removeSpreadFromConfig (state : List Expr) (filePattern : List String)
    (spreadExpression : String) : Except String (List Expr) :=
  match findConfigByFiles state filePattern with
  | none => .error ("No config found for files: " ++ String.intercalate ", " filePattern)
  | some i =>
    .ok (state.set i (.objectLit (removeFirstSpread (membersAt state i) spreadExpression)))

/-- Models `parseConfigArray`, the construction-time check: the first export
assignment must exist and its expression must be an array literal;
otherwise the constructor throws and no session is built.  A config
source file is modelled by the list of expressions of its
export-default statements. -/
def parseConfigArray (exportAssignments : List Expr) : Except String (List Expr) :=
  match exportAssignments with
  | [] => .error "No export default found in ESLint config file"
  | e :: _ =>
    match e with
    | .arrayLit elems => .ok elems
    | _ => .error "Export default must be an array literal in ESLint flat config"

/-- An entry whose `files` property assignment holds an array literal
containing no string-literal elements — the entries that match the
empty pattern list. -/
def hasNoStringFilePatterns (e : Expr) : Bool :=
  match e with
  | .objectLit ms =>
    match getPropertyM ms "files" with
    | some (.propAssign _ init) =>
      match init with
      | .arrayLit es => stringElems es == []
      | _ => false
    | _ => false
  | _ => false

/-- The callee test of `parseDynamicImport`: the import-expression form
or the bare identifier `import`. -/
def isImportCallee : Expr → Bool
  | .importKw => true
  | .ident n => n == "import"
  | _ => false

/-- The first argument when it is a string literal. -/
def firstStringArg : List Expr → Option String
  | .strLit s :: _ => some s
  | _ => none

/-- How many property assignments of a rules object literal carry the
given decoded (quote-stripped) rule name. -/
def countClean (rms : List Member) (name : String) : Nat :=
  rms.countP (fun mem =>
    match mem with
    | .propAssign n _ => cleanName n == name
    | _ => false)

/-- Whether an entry's member list has a rules property assignment
holding an object literal (the precondition of the spread-to-rules
operations). -/
def hasRulesObjectLiteral (ms : List Member) : Bool :=
  match getPropertyM ms "rules" with
  | some (.propAssign _ init) =>
    match init with
    | .objectLit _ => true
    | _ => false
  | _ => false

/-- Import specifier kinds (the public string union of
`ImportTsMorphUtil`). -/
inductive ImportKind where
  | named
  | default
  | namespaceKind
  | full
deriving DecidableEq, Inhabited

/-- A named import specifier with optional alias. -/
structure NamedSpec where
  name : String
  aliasName : Option String
deriving DecidableEq, Inhabited

/-- One import declaration: module specifier, at most one default
import, at most one namespace import (structural singleton slots), and
named imports in declaration order.  A file's import section is the
ordered list of its declarations. -/
structure ImportDecl where
  module : String
  defaultImport : Option String
  namespaceImport : Option String
  namedImports : List NamedSpec
deriving DecidableEq, Inhabited

/-- Models `findImportDeclaration`: first declaration whose module specifier
equals the argument exactly. -/
def findImportDeclaration (file : List ImportDecl) (moduleSpecifier : String) :
    Option ImportDecl :=
  file.find? (fun d => d.module == moduleSpecifier)

/-- Index form of `findImportDeclaration` (the model of holding the
mutable declaration node). -/
def findImportIdx (file : List ImportDecl) (moduleSpecifier : String) : Option Nat :=
  file.findIdx? (fun d => d.module == moduleSpecifier)

/-- Models `hasImportSpecifier`: named specifiers match by original name or
alias; the switch's default branch (reachable only by bypassing the
public union) returns false. -/
def hasImportSpecifier (d : ImportDecl) (specifier : String) : ImportKind → Bool
  | .default => d.defaultImport == some specifier
  | .namespaceKind => d.namespaceImport == some specifier
  | .named =>
    d.namedImports.any (fun ni => ni.name == specifier || ni.aliasName == some specifier)
  | .full => false

/-- Models `addSpecifierToImport`: default and namespace are singleton slots —
adding to an occupied slot silently does nothing; named appends when
not already present; the switch has no `full` case. -/
def addSpecifierToImport (d : ImportDecl) (specifier : String) : ImportKind → ImportDecl
  | .default =>
    match d.defaultImport with
    | none => { d with defaultImport := some specifier }
    | some _ => d
  | .namespaceKind =>
    match d.namespaceImport with
    | none => { d with namespaceImport := some specifier }
    | some _ => d
  | .named =>
    if hasImportSpecifier d specifier .named then d
    else { d with namedImports := d.namedImports ++ [⟨specifier, none⟩] }
  | .full => d

/-- Models `createImportDeclaration`: a fresh declaration holding exactly the
requested specifier (none for `full`). -/
def createImportDeclaration (specifier moduleSpecifier : String) : ImportKind → ImportDecl
  | .default => ⟨moduleSpecifier, some specifier, none, []⟩
  | .namespaceKind => ⟨moduleSpecifier, none, some specifier, []⟩
  | .named => ⟨moduleSpecifier, none, none, [⟨specifier, none⟩]⟩
  | .full => ⟨moduleSpecifier, none, none, []⟩

/-- Models `ensureImport`: reuse the existing declaration for the module when
present (no-op when the specifier already exists or, for `full`, always)
and otherwise append a fresh declaration. -/
def ensureImport (file : List ImportDecl) (importSpecifier moduleSpecifier : String)
    (importType : ImportKind) : List ImportDecl :=
  match findImportIdx file moduleSpecifier with
  | some i =>
    if importType == .full
        || hasImportSpecifier (file.getD i default) importSpecifier importType then file
    else file.set i (addSpecifierToImport (file.getD i default) importSpecifier importType)
  | none => file ++ [createImportDeclaration importSpecifier moduleSpecifier importType]

/-- Models `removeSpecifierFromImport`: the updated declaration when a
specifier was removed, `none` when nothing matched.  Named specifiers
match by original name or alias. -/
def removeSpecifierFromImport (d : ImportDecl) (specifier : String) :
    ImportKind → Option ImportDecl
  | .default =>
    if d.defaultImport == some specifier then some { d with defaultImport := none } else none
  | .namespaceKind =>
    if d.namespaceImport == some specifier then some { d with namespaceImport := none } else none
  | .named =>
    match d.namedImports.findIdx?
        (fun ni => ni.name == specifier || ni.aliasName == some specifier) with
    | some j => some { d with namedImports := d.namedImports.eraseIdx j }
    | none => none
  | .full => none

/-- Models `isImportEmpty`: no default import, no namespace import, and zero
named imports. -/
def isImportEmpty (d : ImportDecl) : Bool :=
  d.defaultImport.isNone && d.namespaceImport.isNone && d.namedImports.isEmpty

/-- Models `removeImport`: `full` deletes the whole declaration; the other
kinds remove the matching specifier and delete the declaration when the
removal leaves it empty; an absent declaration or unmatched specifier
is a silent no-op. -/
def removeImport (file : List ImportDecl) (importSpecifier moduleSpecifier : String)
    (importType : ImportKind) : List ImportDecl :=
  match findImportIdx file moduleSpecifier with
  | none => file
  | some i =>
    if importType == .full then file.eraseIdx i
    else
      match removeSpecifierFromImport (file.getD i default) importSpecifier importType with
      | some d2 => if isImportEmpty d2 then file.eraseIdx i else file.set i d2
      | none => file

/-! Helper lemmas. -/

theorem char_toNat_inj {c d : Char} (h : c.toNat = d.toNat) : c = d :=
  Char.eq_of_val_eq (UInt32.eq_of_toBitVec_eq (BitVec.eq_of_toNat_eq h))

theorem charsLe_total : ∀ as bs : List Char, charsLe as bs = true ∨ charsLe bs as = true
  | [], _ => Or.inl rfl
  | _ :: _, [] => Or.inr rfl
  | c :: cs, d :: ds => by
    by_cases hcd : c = d
    · subst hcd
      rcases charsLe_total cs ds with h | h
      · exact Or.inl (by simpa [charsLe] using h)
      · exact Or.inr (by simpa [charsLe] using h)
    · have hdc : ¬ d = c := fun hh => hcd hh.symm
      rcases Nat.le_total c.toNat d.toNat with h | h
      · exact Or.inl (by simp [charsLe, hcd]; exact h)
      · exact Or.inr (by simp [charsLe, hdc]; exact h)

theorem charsLe_trans : ∀ as bs cs : List Char,
    charsLe as bs = true → charsLe bs cs = true → charsLe as cs = true
  | [], _, _ => fun _ _ => rfl
  | _ :: _, [], _ => fun h1 _ => absurd h1 (by simp [charsLe])
  | _ :: _, _ :: _, [] => fun _ h2 => absurd h2 (by simp [charsLe])
  | a :: as, b :: bs, c :: cs => fun h1 h2 => by
    by_cases hab : a = b
    · subst hab
      by_cases hac : a = c
      · subst hac
        simp only [charsLe, if_pos rfl] at h1 h2 ⊢
        exact charsLe_trans as bs cs h1 h2
      · simp only [charsLe, if_neg hac] at h2 ⊢
        exact h2
    · by_cases hbc : b = c
      · subst hbc
        simp only [charsLe, if_neg hab] at h1 ⊢
        exact h1
      · simp only [charsLe, if_neg hab, if_neg hbc, decide_eq_true_eq] at h1 h2
        by_cases hac : a = c
        · subst hac
          exact absurd (char_toNat_inj (Nat.le_antisymm h1 h2)) hab
        · simp only [charsLe, if_neg hac, decide_eq_true_eq]
          exact Nat.le_trans h1 h2

theorem charsLe_antisymm : ∀ as bs : List Char,
    charsLe as bs = true → charsLe bs as = true → as = bs
  | [], [] => fun _ _ => rfl
  | [], _ :: _ => fun _ h2 => absurd h2 (by simp [charsLe])
  | _ :: _, [] => fun h1 _ => absurd h1 (by simp [charsLe])
  | c :: cs, d :: ds => fun h1 h2 => by
    by_cases hcd : c = d
    · subst hcd
      simp only [charsLe, if_pos rfl] at h1 h2
      rw [charsLe_antisymm cs ds h1 h2]
    · have hdc : ¬ d = c := fun hh => hcd hh.symm
      simp only [charsLe, if_neg hcd, if_neg hdc, decide_eq_true_eq] at h1 h2
      exact absurd (char_toNat_inj (Nat.le_antisymm h1 h2)) hcd

theorem strLe_total (a b : String) : strLe a b = true ∨ strLe b a = true :=
  charsLe_total a.data b.data

theorem strLe_trans {a b c : String} (h1 : strLe a b = true) (h2 : strLe b c = true) :
    strLe a c = true :=
  charsLe_trans a.data b.data c.data h1 h2

theorem strLe_antisymm {a b : String} (h1 : strLe a b = true) (h2 : strLe b a = true) :
    a = b := by
  have h := charsLe_antisymm a.data b.data h1 h2
  cases a
  cases b
  exact congrArg String.mk h

theorem sortPatterns_eq_of_perm {p q : List String} (h : p.Perm q) :
    sortPatterns p = sortPatterns q := by
  haveI : IsTotal String patternLe := ⟨fun a b => strLe_total a b⟩
  haveI : IsTrans String patternLe := ⟨fun _ _ _ ha hb => strLe_trans ha hb⟩
  haveI : IsAntisymm String patternLe := ⟨fun _ _ ha hb => strLe_antisymm ha hb⟩
  exact List.eq_of_perm_of_sorted
    ((List.perm_insertionSort _ p).trans (h.trans (List.perm_insertionSort _ q).symm))
    (List.sorted_insertionSort _ p) (List.sorted_insertionSort _ q)

theorem arraysEqual_congr_right {xs p q : List String} (h : p.Perm q) :
    arraysEqual xs p = arraysEqual xs q := by
  unfold arraysEqual
  rw [sortPatterns_eq_of_perm h, h.length_eq]

theorem matchesFiles_congr {e : Expr} {p q : List String} (h : p.Perm q) :
    matchesFiles e p = matchesFiles e q := by
  cases e <;> simp only [matchesFiles]
  case objectLit ms =>
    cases hm : getPropertyM ms "files" with
    | none => rfl
    | some m =>
      cases m with
      | spreadAssign _ => rfl
      | propAssign n init =>
        cases init <;> first
          | rfl
          | exact arraysEqual_congr_right h

theorem findConfigByFiles_congr {state : List Expr} {p q : List String} (h : p.Perm q) :
    findConfigByFiles state p = findConfigByFiles state q := by
  unfold findConfigByFiles
  congr 1
  funext e
  exact matchesFiles_congr h

theorem getD_concat_length {α : Type} (l : List α) (d x : α) :
    (l ++ [d]).getD l.length x = d := by
  induction l with
  | nil => rfl
  | cons a as ih => simp [ih]

theorem set_concat_length {α : Type} (l : List α) (d d' : α) :
    (l ++ [d]).set l.length d' = l ++ [d'] := by
  induction l with
  | nil => rfl
  | cons a as ih => simp [ih]

theorem find?_concat_of_all_false {α : Type} (p : α → Bool) (l : List α) (d : α)
    (h : ∀ x ∈ l, p x = false) :
    (l ++ [d]).find? p = if p d then some d else none := by
  rw [List.find?_append]
  have h0 : l.find? p = none := List.find?_eq_none.mpr (by intro x hx; simp [h x hx])
  rw [h0]
  cases hpd : p d <;> simp [List.find?, hpd]

theorem findIdx?_concat_of_all_false {α : Type} (p : α → Bool) (l : List α) (d : α)
    (h : ∀ x ∈ l, p x = false) :
    (l ++ [d]).findIdx? p = if p d then some l.length else none := by
  rw [List.findIdx?_append]
  have h0 : l.findIdx? p = none := List.findIdx?_eq_none_iff.mpr h
  rw [h0]
  cases hpd : p d <;> simp [hpd]

theorem filter_concat_of_all_false {α : Type} (p : α → Bool) (l : List α) (d : α)
    (h : ∀ x ∈ l, p x = false) :
    (l ++ [d]).filter p = if p d then [d] else [] := by
  rw [List.filter_append]
  have h0 : l.filter p = [] := by
    rw [List.filter_eq_nil_iff]
    intro x hx
    simp [h x hx]
  rw [h0]
  cases hpd : p d <;> simp [List.filter, hpd]

theorem getPropertyM_none_iff : ∀ (ms : List Member) (key : String),
    getPropertyM ms key = none ↔ getPropertyIdx ms key = none
  | [], key => by simp [getPropertyM, getPropertyIdx]
  | .propAssign n init :: rest, key => by
    by_cases h : (n == key) = true
    · simp [getPropertyM, getPropertyIdx, h]
    · simp [getPropertyM, getPropertyIdx, h, getPropertyM_none_iff rest key]
  | .spreadAssign s :: rest, key => by
    simp [getPropertyM, getPropertyIdx, getPropertyM_none_iff rest key]

theorem getPropertyM_shape : ∀ (ms : List Member) (key : String) (m : Member),
    getPropertyM ms key = some m → ∃ init, m = .propAssign key init
  | [], key, m => by simp [getPropertyM]
  | .propAssign n init :: rest, key, m => by
    by_cases h : (n == key) = true
    · have hn : n = key := eq_of_beq h
      subst hn
      simp only [getPropertyM, if_pos h, Option.some_inj]
      intro hm
      exact ⟨init, hm.symm⟩
    · simp only [getPropertyM, if_neg h]
      exact getPropertyM_shape rest key m
  | .spreadAssign s :: rest, key, m => by
    simp only [getPropertyM]
    exact getPropertyM_shape rest key m

theorem setInitializerAt_spec : ∀ (ms : List Member) (key : String) (e : Expr),
    setInitializerAt ms key e =
      (match getPropertyIdx ms key with
       | some i => ms.set i (.propAssign key e)
       | none => ms)
  | [], key, e => rfl
  | .propAssign n init :: rest, key, e => by
    by_cases h : (n == key) = true
    · have hn : n = key := eq_of_beq h
      subst hn
      simp [setInitializerAt, getPropertyIdx, h]
    · have ih := setInitializerAt_spec rest key e
      cases hr : getPropertyIdx rest key with
      | none =>
        rw [hr] at ih
        simp [setInitializerAt, getPropertyIdx, h, hr, ih]
      | some j =>
        rw [hr] at ih
        simp [setInitializerAt, getPropertyIdx, h, hr, ih]
  | .spreadAssign s :: rest, key, e => by
    have ih := setInitializerAt_spec rest key e
    cases hr : getPropertyIdx rest key with
    | none =>
      rw [hr] at ih
      simp [setInitializerAt, getPropertyIdx, hr, ih]
    | some j =>
      rw [hr] at ih
      simp [setInitializerAt, getPropertyIdx, hr, ih]

theorem updateRulesStep_eq (rms : List Member) (rn : String) (rv : Value) :
    updateRulesStep rms rn rv =
      (match getPropertyIdx rms rn with
       | some j => rms.set j (.propAssign rn (exprOfValue rv))
       | none => rms ++ [.propAssign ("'" ++ rn ++ "'") (exprOfValue rv)]) := by
  unfold updateRulesStep
  cases hm : getPropertyM rms rn with
  | none =>
    rw [(getPropertyM_none_iff rms rn).mp hm]
  | some m =>
    obtain ⟨init, rfl⟩ := getPropertyM_shape rms rn m hm
    cases hr : getPropertyIdx rms rn with
    | none =>
      rw [(getPropertyM_none_iff rms rn).mpr hr] at hm
      cases hm
    | some j =>
      have hs := setInitializerAt_spec rms rn (exprOfValue rv)
      rw [hr] at hs
      simpa using hs

theorem updateConfigField_eq (ms : List Member) (key : String) (value : Value)
    (hguard : ¬(key = "rules" ∧ isJsObjectLike value = true)) :
    updateConfigField ms key value =
      (match getPropertyIdx ms key with
       | some i => ms.set i (.propAssign key (exprOfValue value))
       | none => ms ++ [.propAssign key (exprOfValue value)]) := by
  unfold updateConfigField
  have hg : (key == "rules" && isJsObjectLike value) = false := by
    rcases Bool.eq_false_or_eq_true (key == "rules") with h | h
    · rcases Bool.eq_false_or_eq_true (isJsObjectLike value) with h2 | h2
      · exact absurd ⟨eq_of_beq h, h2⟩ hguard
      · simp [h, h2]
    · simp [h]
  cases hm : getPropertyM ms key with
  | none =>
    rw [(getPropertyM_none_iff ms key).mp hm]
  | some m =>
    obtain ⟨init, rfl⟩ := getPropertyM_shape ms key m hm
    rw [hg]
    cases hr : getPropertyIdx ms key with
    | none =>
      rw [(getPropertyM_none_iff ms key).mpr hr] at hm
      cases hm
    | some i =>
      have hs := setInitializerAt_spec ms key (exprOfValue value)
      rw [hr] at hs
      simpa using hs

theorem string_mk_data (s : String) : String.mk s.data = s := by
  cases s
  rfl

theorem cleanName_quote (n : String) : cleanName ("'" ++ n ++ "'") = n := by
  have hdata : ("'" ++ n ++ "'").data = '\'' :: (n.data ++ ['\'']) := by
    simp [String.data_append]
  unfold cleanName
  rw [hdata]
  simp [List.getLast?_concat, List.dropLast_concat, string_mk_data]

theorem matchesFiles_nil (e : Expr) :
    matchesFiles e [] = hasNoStringFilePatterns e := by
  cases e <;> simp only [matchesFiles, hasNoStringFilePatterns]
  case objectLit ms =>
    cases hm : getPropertyM ms "files" with
    | none => rfl
    | some mem =>
      cases mem with
      | spreadAssign s => rfl
      | propAssign n init =>
        cases init <;> try rfl
        case arrayLit es =>
          show arraysEqual (stringElems es) [] = (stringElems es == [])
          unfold arraysEqual
          cases stringElems es <;> rfl

theorem getPropertyM_map_of_find?_none :
    ∀ (config : List (String × Value)),
      config.find? (fun f => f.1 == "files") = none →
      getPropertyM (config.map (fun kv => Member.propAssign kv.1 (exprOfValue kv.2)))
        "files" = none := by
  intro config
  induction config with
  | nil => intro _; rfl
  | cons kv rest ih =>
    intro h
    cases kv with
    | mk k v =>
      cases hb : (k == "files") with
      | true =>
        exfalso
        simp [List.find?, hb] at h
      | false =>
        have hrest : rest.find? (fun f => f.1 == "files") = none := by
          simp only [List.find?, hb] at h
          exact h
        simp [getPropertyM, hb, ih hrest]

theorem parseDynamicImport_eq (callee : Expr) (args : List Expr) :
    parseDynamicImport callee args
      = if isImportCallee callee then firstStringArg args else none := by
  cases callee <;>
    (cases args with
     | nil => simp [parseDynamicImport, isImportCallee, firstStringArg]
     | cons a rest =>
       cases a <;> simp [parseDynamicImport, isImportCallee, firstStringArg])

/-! Claim theorems. -/

/-- C1: pattern-set identity is order-independent.  For every state
with an entry whose files array is set-equal to patterns `p` (first
match, at index `i`) and every reordering `q` of `p`,
`addOrUpdateConfig` with a config whose `files` field holds `q` updates
that same entry in place instead of appending; and the spec's example —
upsert with files `a, b` and rules `x = 1`, then upsert with files
`b, a` and rules `x = 2` — leaves exactly one entry whose decoded rules
mapping carries the second call's value `x = 2`. -/
theorem C1_addOrUpdateConfig_pattern_set_order_independent :
    (∀ (state : List Expr) (config : List (String × Value)) (p q : List String) (i : Nat),
      p.Perm q →
      findConfigByFiles state p = some i →
      configFiles config = q →
      addOrUpdateConfig state config
        = state.set i (.objectLit (updateConfigObject (membersAt state i) config)))
    ∧ addOrUpdateConfig
        (addOrUpdateConfig []
          [("files", .vArr [.vStr "a", .vStr "b"]), ("rules", .vObj [("x", .vNum 1)])])
        [("files", .vArr [.vStr "b", .vStr "a"]), ("rules", .vObj [("x", .vNum 2)])]
      = [.objectLit [.propAssign "files" (.arrayLit [.strLit "b", .strLit "a"]),
          .propAssign "rules" (.objectLit
            [.propAssign "'x'" (.numLit 1), .propAssign "'x'" (.numLit 2)])]]
    ∧ getConfigs (addOrUpdateConfig
        (addOrUpdateConfig []
          [("files", .vArr [.vStr "a", .vStr "b"]), ("rules", .vObj [("x", .vNum 1)])])
        [("files", .vArr [.vStr "b", .vStr "a"]), ("rules", .vObj [("x", .vNum 2)])])
      = [[("files", .vArr [.vStr "b", .vStr "a"]), ("rules", .vObj [("x", .vNum 2)])]] := by
  refine ⟨?_, rfl, rfl⟩
  intro state config p q i hperm hfind hfiles
  unfold addOrUpdateConfig
  rw [hfiles, ← findConfigByFiles_congr hperm, hfind]

/-- Witness for C1: a one-entry state with files `a, b`, upserted with
the reordered patterns `b, a`, is updated in place. -/
theorem C1_witness :
    (["a", "b"] : List String).Perm ["b", "a"]
    ∧ findConfigByFiles
        [.objectLit [.propAssign "files" (.arrayLit [.strLit "a", .strLit "b"])]]
        ["a", "b"] = some 0
    ∧ configFiles [("files", Value.vArr [.vStr "b", .vStr "a"])] = ["b", "a"]
    ∧ addOrUpdateConfig
        [.objectLit [.propAssign "files" (.arrayLit [.strLit "a", .strLit "b"])]]
        [("files", .vArr [.vStr "b", .vStr "a"])]
      = [.objectLit [.propAssign "files" (.arrayLit [.strLit "b", .strLit "a"])]] :=
  ⟨List.Perm.swap "b" "a" [], rfl, rfl,
   (C1_addOrUpdateConfig_pattern_set_order_independent.1
      [.objectLit [.propAssign "files" (.arrayLit [.strLit "a", .strLit "b"])]]
      [("files", .vArr [.vStr "b", .vStr "a"])]
      ["a", "b"] ["b", "a"] 0 (List.Perm.swap "b" "a" []) rfl rfl).trans rfl⟩

/-- C2 counterexample: the rule name `x` is present in the entry's
decoded rules mapping (spelled `'x'` with quotes, exactly as the
utility itself writes rule names), yet the upsert does not replace its
value in place — the exact-raw-name lookup misses the quoted spelling
and a second property with the same decoded key is appended, with the
old value left untouched. -/
theorem C2_counterexample :
    jsGet (parseRulesObject [.propAssign "'x'" (.strLit "error")] []) "x"
      = some (.vStr "error")
    ∧ addOrUpdateConfig
        [.objectLit [.propAssign "files" (.arrayLit [.strLit "a"]),
          .propAssign "rules" (.objectLit [.propAssign "'x'" (.strLit "error")])]]
        [("files", .vArr [.vStr "a"]), ("rules", .vObj [("x", .vStr "warn")])]
      = [.objectLit [.propAssign "files" (.arrayLit [.strLit "a"]),
          .propAssign "rules" (.objectLit [.propAssign "'x'" (.strLit "error"),
            .propAssign "'x'" (.strLit "warn")])]] :=
  ⟨rfl, rfl⟩

/-- C2 amended: field-level patching matches by exact raw property-name
text, not by decoded rule name.  A given field replaces in place
exactly the first property whose written name equals the key; a miss
appends (bare key at the entry level, single-quoted at the rules
level), preserving insertion order; the `rules` key with an object
value merges rule-by-rule into an object-literal initializer under the
same exact-raw-name matching. -/
theorem C2_amended_field_patch :
    (∀ (ms : List Member) (key : String) (value : Value),
      ¬(key = "rules" ∧ isJsObjectLike value = true) →
      updateConfigField ms key value =
        (match getPropertyIdx ms key with
         | some i => ms.set i (.propAssign key (exprOfValue value))
         | none => ms ++ [.propAssign key (exprOfValue value)]))
    ∧ (∀ (ms rms : List Member) (value : Value),
      isJsObjectLike value = true →
      getPropertyM ms "rules" = some (.propAssign "rules" (.objectLit rms)) →
      updateConfigField ms "rules" value
        = setInitializerAt ms "rules" (.objectLit (updateRulesObject rms (jsEntries value))))
    ∧ (∀ (rms : List Member) (rn : String) (rv : Value),
      updateRulesStep rms rn rv =
        (match getPropertyIdx rms rn with
         | some j => rms.set j (.propAssign rn (exprOfValue rv))
         | none => rms ++ [.propAssign ("'" ++ rn ++ "'") (exprOfValue rv)])) := by
  refine ⟨updateConfigField_eq, ?_, updateRulesStep_eq⟩
  intro ms rms value hobj hm
  unfold updateConfigField
  rw [hm]
  simp [hobj, updateRulesInit]

/-- Witness for C2: patching a field that exists only under a quoted
spelling appends a bare-keyed property instead of replacing. -/
theorem C2_amended_witness :
    (¬("plugins" = "rules" ∧ isJsObjectLike (Value.vStr "p") = true))
    ∧ updateConfigField [.propAssign "'plugins'" (.strLit "old")] "plugins" (.vStr "p")
      = [.propAssign "'plugins'" (.strLit "old"), .propAssign "plugins" (.strLit "p")] :=
  ⟨by simp [isJsObjectLike],
   (C2_amended_field_patch.1 [.propAssign "'plugins'" (.strLit "old")] "plugins"
      (.vStr "p") (by simp [isJsObjectLike])).trans rfl⟩

/-- C3: decoding is total — the embedding returns a plain `Value` for
every expression, with no failure channel — and every expression that
is not one of the recognized shapes decodes to its verbatim source
text (which in JS is an ordinary string value). -/
theorem C3_parsePropertyValue_total_fallback :
    ∀ e : Expr, recognizedShape e = false →
      parsePropertyValue e = .vStr (getText e) := by
  intro e h
  cases e with
  | strLit s => exact Bool.noConfusion h
  | numLit n => exact Bool.noConfusion h
  | trueKw => exact Bool.noConfusion h
  | falseKw => exact Bool.noConfusion h
  | nullKw => exact Bool.noConfusion h
  | ident n =>
    simp only [recognizedShape] at h
    simp [parsePropertyValue, h]
  | arrayLit es => exact Bool.noConfusion h
  | objectLit ms => exact Bool.noConfusion h
  | awaitExpr inner =>
    cases inner with
    | callExpr c args =>
      simp only [recognizedShape] at h
      cases hd : parseDynamicImport c args with
      | some p => rw [hd] at h; exact Bool.noConfusion h
      | none => simp [parsePropertyValue, hd]
    | strLit s => rfl
    | numLit n => rfl
    | trueKw => rfl
    | falseKw => rfl
    | nullKw => rfl
    | ident n => rfl
    | arrayLit es => rfl
    | objectLit ms => rfl
    | awaitExpr e2 => rfl
    | importKw => rfl
    | other t => rfl
  | callExpr c args => rfl
  | importKw => rfl
  | other t => rfl

/-- Witness for C3: an unrecognized expression decodes to its text. -/
theorem C3_witness :
    recognizedShape (.other "foo.bar()") = false
    ∧ parsePropertyValue (.other "foo.bar()") = .vStr "foo.bar()" :=
  ⟨rfl, C3_parsePropertyValue_total_fallback (.other "foo.bar()") rfl⟩

/-- C4 counterexample: an awaited import call with two arguments — not
exactly one — still decodes to the tagged dynamic import (the source
only requires at least one argument), not to its verbatim text as the
claim would have it. -/
theorem C4_counterexample :
    parsePropertyValue (.awaitExpr (.callExpr .importKw [.strLit "x", .strLit "y"]))
      = .vDynImport "x"
    ∧ [Expr.strLit "x", Expr.strLit "y"].length ≠ 1 :=
  ⟨rfl, by decide⟩

/-- C4 amended: an awaited call decodes to the tagged dynamic import
exactly when the callee is the import-expression form or the bare
identifier `import` and the call has at least one argument whose first
argument is a string literal (the module path); an awaited call of any
other shape decodes to its verbatim source text. -/
theorem C4_dynamicImport_decoding :
    (∀ (callee : Expr) (args : List Expr) (s : String) (rest : List Expr),
      isImportCallee callee = true →
      args = .strLit s :: rest →
      parsePropertyValue (.awaitExpr (.callExpr callee args)) = .vDynImport s)
    ∧ (∀ (callee : Expr) (args : List Expr),
      isImportCallee callee = false ∨ firstStringArg args = none →
      parsePropertyValue (.awaitExpr (.callExpr callee args))
        = .vStr (getText (.awaitExpr (.callExpr callee args)))) := by
  constructor
  · intro callee args s rest hc ha
    subst ha
    have hd : parseDynamicImport callee (.strLit s :: rest) = some s := by
      rw [parseDynamicImport_eq, hc]
      rfl
    simp [parsePropertyValue, hd]
  · intro callee args h
    have hd : parseDynamicImport callee args = none := by
      rw [parseDynamicImport_eq]
      rcases h with h | h
      · simp [h]
      · cases hc : isImportCallee callee <;> simp [h]
    simp [parsePropertyValue, hd]

/-- Witness for C4: the bare-identifier form with one string argument
decodes to the tagged dynamic import. -/
theorem C4_witness :
    isImportCallee (.ident "import") = true
    ∧ parsePropertyValue (.awaitExpr (.callExpr (.ident "import") [.strLit "m"]))
      = .vDynImport "m" :=
  ⟨rfl, C4_dynamicImport_decoding.1 (.ident "import") [.strLit "m"] "m" [] rfl rfl⟩

/-- C5: default and namespace specifiers are singleton slots per
declaration.  Starting from a file with no declaration for module `m`,
`ensureImport a m default` followed by `ensureImport b m default`
leaves exactly one declaration for `m`, whose default slot holds `a`
(the `Option` field models the at-most-one slot), and the second call
is a silent no-op; likewise for namespace specifiers. -/
theorem C5_ensureImport_singleton_slots :
    ∀ (file : List ImportDecl) (m a b : String),
      findImportDeclaration file m = none →
      (ensureImport (ensureImport file a m .default) b m .default
         = ensureImport file a m .default
       ∧ findImportDeclaration (ensureImport file a m .default) m
         = some ⟨m, some a, none, []⟩
       ∧ ((ensureImport file a m .default).filter (fun d => d.module == m)).length = 1)
      ∧ (ensureImport (ensureImport file a m .namespaceKind) b m .namespaceKind
         = ensureImport file a m .namespaceKind
       ∧ findImportDeclaration (ensureImport file a m .namespaceKind) m
         = some ⟨m, none, some a, []⟩
       ∧ ((ensureImport file a m .namespaceKind).filter
           (fun d => d.module == m)).length = 1) := by
  intro file m a b hnone
  have hall : ∀ x ∈ file, (x.module == m) = false := by
    intro x hx
    have h := List.find?_eq_none.mp hnone x hx
    simpa using h
  have hidx : findImportIdx file m = none := List.findIdx?_eq_none_iff.mpr hall
  constructor
  · have hf1 : ensureImport file a m .default = file ++ [⟨m, some a, none, []⟩] := by
      unfold ensureImport
      rw [hidx]
      rfl
    have hfind1 : findImportIdx (file ++ [(⟨m, some a, none, []⟩ : ImportDecl)]) m
        = some file.length := by
      unfold findImportIdx
      rw [findIdx?_concat_of_all_false _ _ _ hall]
      simp
    have hgetD : (file ++ [(⟨m, some a, none, []⟩ : ImportDecl)]).getD file.length default
        = ⟨m, some a, none, []⟩ := getD_concat_length _ _ _
    have hnoop : ensureImport (file ++ [(⟨m, some a, none, []⟩ : ImportDecl)]) b m .default
        = file ++ [⟨m, some a, none, []⟩] := by
      unfold ensureImport
      rw [hfind1]
      simp only [hgetD]
      by_cases hab : a = b
      · subst hab
        simp [hasImportSpecifier]
      · have hhas : hasImportSpecifier ⟨m, some a, none, []⟩ b .default = false := by
          simp [hasImportSpecifier, hab]
        rw [hhas]
        simp [addSpecifierToImport, set_concat_length]
    refine ⟨by rw [hf1]; exact hnoop, ?_, ?_⟩
    · rw [hf1]
      unfold findImportDeclaration
      rw [find?_concat_of_all_false _ _ _ hall]
      simp
    · rw [hf1, filter_concat_of_all_false _ _ _ hall]
      simp
  · have hf1 : ensureImport file a m .namespaceKind = file ++ [⟨m, none, some a, []⟩] := by
      unfold ensureImport
      rw [hidx]
      rfl
    have hfind1 : findImportIdx (file ++ [(⟨m, none, some a, []⟩ : ImportDecl)]) m
        = some file.length := by
      unfold findImportIdx
      rw [findIdx?_concat_of_all_false _ _ _ hall]
      simp
    have hgetD : (file ++ [(⟨m, none, some a, []⟩ : ImportDecl)]).getD file.length default
        = ⟨m, none, some a, []⟩ := getD_concat_length _ _ _
    have hnoop : ensureImport (file ++ [(⟨m, none, some a, []⟩ : ImportDecl)]) b m
        .namespaceKind = file ++ [⟨m, none, some a, []⟩] := by
      unfold ensureImport
      rw [hfind1]
      simp only [hgetD]
      by_cases hab : a = b
      · subst hab
        simp [hasImportSpecifier]
      · have hhas : hasImportSpecifier ⟨m, none, some a, []⟩ b .namespaceKind = false := by
          simp [hasImportSpecifier, hab]
        rw [hhas]
        simp [addSpecifierToImport, set_concat_length]
    refine ⟨by rw [hf1]; exact hnoop, ?_, ?_⟩
    · rw [hf1]
      unfold findImportDeclaration
      rw [find?_concat_of_all_false _ _ _ hall]
      simp
    · rw [hf1, filter_concat_of_all_false _ _ _ hall]
      simp

/-- Witness for C5: an empty file, ensure default `A` then `B`. -/
theorem C5_witness :
    findImportDeclaration ([] : List ImportDecl) "m" = none
    ∧ ensureImport (ensureImport [] "A" "m" .default) "B" "m" .default
      = ensureImport [] "A" "m" .default
    ∧ findImportDeclaration (ensureImport [] "A" "m" .default) "m"
      = some ⟨"m", some "A", none, []⟩ :=
  ⟨rfl,
   ((C5_ensureImport_singleton_slots [] "m" "A" "B" rfl).1).1,
   ((C5_ensureImport_singleton_slots [] "m" "A" "B" rfl).1).2.1⟩

/-- C6: every removal of a named/default/namespace specifier that
succeeds and leaves the declaration with no default import, no
namespace import, and zero named imports deletes the whole declaration;
in particular a file holding only `import · only · from m` ends with
zero declarations referencing `m` after removing that named specifier. -/
theorem C6_removeImport_deletes_emptied_declaration :
    (∀ (file : List ImportDecl) (spec m : String) (k : ImportKind) (i : Nat)
      (d2 : ImportDecl),
      k ≠ .full →
      findImportIdx file m = some i →
      removeSpecifierFromImport (file.getD i default) spec k = some d2 →
      isImportEmpty d2 = true →
      removeImport file spec m k = file.eraseIdx i)
    ∧ (∀ (m name : String),
      removeImport [⟨m, none, none, [⟨name, none⟩]⟩] name m .named = []
      ∧ findImportDeclaration
          (removeImport [⟨m, none, none, [⟨name, none⟩]⟩] name m .named) m = none) := by
  constructor
  · intro file spec m k i d2 hk hfind hrem hempty
    unfold removeImport
    rw [hfind]
    have hkf : (k == ImportKind.full) = false := by
      cases k <;> simp_all
    rw [hkf]
    simp only [Bool.false_eq_true, if_false]
    rw [hrem]
    simp only [hempty, if_true]
  · intro m name
    have h1 : findImportIdx [(⟨m, none, none, [⟨name, none⟩]⟩ : ImportDecl)] m
        = some 0 := by
      unfold findImportIdx
      simp [List.findIdx?_cons]
    have h2 : removeSpecifierFromImport
        ((([⟨m, none, none, [⟨name, none⟩]⟩] : List ImportDecl)).getD 0 default)
        name .named = some ⟨m, none, none, []⟩ := by
      simp [removeSpecifierFromImport, List.findIdx?_cons]
    have hzero : removeImport [(⟨m, none, none, [⟨name, none⟩]⟩ : ImportDecl)] name m
        .named = [] := by
      unfold removeImport
      rw [h1]
      simp only [show (ImportKind.named == ImportKind.full) = false from rfl,
        Bool.false_eq_true, if_false]
      rw [h2]
      rfl
    exact ⟨hzero, by rw [hzero]; rfl⟩

/-- Witness for C6: the general deletion statement applied to the
one-declaration file. -/
theorem C6_witness :
    removeImport [⟨"m", none, none, [⟨"only", none⟩]⟩] "only" "m" .named
      = ([⟨"m", none, none, [⟨"only", none⟩]⟩] : List ImportDecl).eraseIdx 0 :=
  C6_removeImport_deletes_emptied_declaration.1
    [⟨"m", none, none, [⟨"only", none⟩]⟩] "only" "m" .named 0
    ⟨"m", none, none, []⟩ (by decide) rfl rfl rfl

/-- C7: the four spread operations raise a synchronous fatal error when
no entry matches the given file patterns, and the rules-variants
additionally raise when the matched entry's rules property is not a
property assignment holding an object literal; `removeConfig` and
`removeRule` are silent no-ops when no entry matches. -/
theorem C7_spread_ops_fatal_remove_ops_silent :
    (∀ (state : List Expr) (files : List String) (e n : String),
      findConfigByFiles state files = none →
      addSpreadToRules state files e
        = .error ("No config found for files: " ++ String.intercalate ", " files)
      ∧ removeSpreadFromRules state files e
        = .error ("No config found for files: " ++ String.intercalate ", " files)
      ∧ addSpreadToConfig state files e
        = .error ("No config found for files: " ++ String.intercalate ", " files)
      ∧ removeSpreadFromConfig state files e
        = .error ("No config found for files: " ++ String.intercalate ", " files)
      ∧ removeConfig state files = state
      ∧ removeRule state files n = state)
    ∧ (∀ (state : List Expr) (files : List String) (e : String) (i : Nat),
      findConfigByFiles state files = some i →
      hasRulesObjectLiteral (membersAt state i) = false →
      addSpreadToRules state files e = .error "Rules property must be an object literal"
      ∧ removeSpreadFromRules state files e
        = .error "Rules property must be an object literal") := by
  constructor
  · intro state files e n hfind
    refine ⟨?_, ?_, ?_, ?_, ?_, ?_⟩ <;>
      simp [addSpreadToRules, removeSpreadFromRules, addSpreadToConfig,
        removeSpreadFromConfig, removeConfig, removeRule, hfind]
  · intro state files e i hfind hrules
    unfold hasRulesObjectLiteral at hrules
    cases hm : getPropertyM (membersAt state i) "rules" with
    | none =>
      constructor <;> simp [addSpreadToRules, removeSpreadFromRules, hfind, hm]
    | some mem =>
      obtain ⟨init, rfl⟩ := getPropertyM_shape _ _ _ hm
      rw [hm] at hrules
      cases init <;>
        first
        | exact Bool.noConfusion hrules
        | constructor <;> simp [addSpreadToRules, removeSpreadFromRules, hfind, hm]

/-- Witness for C7: an empty state (no match at all) and a one-entry
state whose entry has no rules object literal. -/
theorem C7_witness :
    findConfigByFiles ([] : List Expr) ["a"] = none
    ∧ addSpreadToRules [] ["a"] "base.rules"
      = .error "No config found for files: a"
    ∧ removeConfig [] ["a"] = []
    ∧ findConfigByFiles [.objectLit [.propAssign "files" (.arrayLit [.strLit "a"])]]
        ["a"] = some 0
    ∧ hasRulesObjectLiteral
        (membersAt [.objectLit [.propAssign "files" (.arrayLit [.strLit "a"])]] 0)
      = false
    ∧ addSpreadToRules [.objectLit [.propAssign "files" (.arrayLit [.strLit "a"])]]
        ["a"] "base.rules" = .error "Rules property must be an object literal" :=
  ⟨rfl,
   ((C7_spread_ops_fatal_remove_ops_silent.1 [] ["a"] "base.rules" "r" rfl).1).trans rfl,
   (C7_spread_ops_fatal_remove_ops_silent.1 [] ["a"] "base.rules" "r" rfl).2.2.2.2.1,
   rfl, rfl,
   (C7_spread_ops_fatal_remove_ops_silent.2
      [.objectLit [.propAssign "files" (.arrayLit [.strLit "a"])]]
      ["a"] "base.rules" 0 rfl rfl).1⟩

/-- C8: construction fails (the `Except` is an error, so no session
value exists) exactly when there is no export-default statement or the
first exported expression is not an array literal. -/
theorem C8_parseConfigArray_fails_iff :
    ∀ es : List Expr,
      (∃ msg, parseConfigArray es = .error msg)
        ↔ ¬∃ elems, es.head? = some (Expr.arrayLit elems) := by
  intro es
  cases es with
  | nil => simp [parseConfigArray]
  | cons e tl => cases e <;> simp [parseConfigArray]

/-- C9: when `addRule` targets an entry matching the patterns whose
rules property holds an object literal, it appends the quoted rule name
with no duplicate check; if the rule name is already present in the
decoded rules mapping, the emitted mapping ends up with two properties
carrying the same decoded key. -/
theorem C9_addRule_appends_duplicate :
    ∀ (state : List Expr) (files : List String) (name : String) (v : Value) (i : Nat)
      (rms : List Member),
      findConfigByFiles state files = some i →
      getPropertyM (membersAt state i) "rules"
        = some (.propAssign "rules" (.objectLit rms)) →
      1 ≤ countClean rms name →
      addRule state files name v
        = state.set i (.objectLit (setInitializerAt (membersAt state i) "rules"
            (.objectLit (rms ++ [.propAssign ("'" ++ name ++ "'") (exprOfValue v)]))))
      ∧ countClean (rms ++ [.propAssign ("'" ++ name ++ "'") (exprOfValue v)]) name
        = countClean rms name + 1
      ∧ 2 ≤ countClean (rms ++ [.propAssign ("'" ++ name ++ "'") (exprOfValue v)]) name := by
  intro state files name v i rms hfind hrules hpresent
  have hcount : countClean (rms ++ [.propAssign ("'" ++ name ++ "'") (exprOfValue v)]) name
      = countClean rms name + 1 := by
    unfold countClean
    rw [List.countP_append]
    simp [List.countP_cons, cleanName_quote]
  refine ⟨?_, hcount, by rw [hcount]; omega⟩
  unfold addRule
  rw [hfind]
  simp only [hrules]

/-- Witness for C9: re-adding the rule `x` to an entry that already
holds it (quoted) yields two properties with decoded key `x`. -/
theorem C9_witness :
    1 ≤ countClean [.propAssign "'x'" (.strLit "error")] "x"
    ∧ addRule
        [.objectLit [.propAssign "files" (.arrayLit [.strLit "a"]),
          .propAssign "rules" (.objectLit [.propAssign "'x'" (.strLit "error")])]]
        ["a"] "x" (.vStr "warn")
      = [.objectLit [.propAssign "files" (.arrayLit [.strLit "a"]),
          .propAssign "rules" (.objectLit [.propAssign "'x'" (.strLit "error"),
            .propAssign "'x'" (.strLit "warn")])]] :=
  ⟨by decide,
   ((C9_addRule_appends_duplicate
      [.objectLit [.propAssign "files" (.arrayLit [.strLit "a"]),
        .propAssign "rules" (.objectLit [.propAssign "'x'" (.strLit "error")])]]
      ["a"] "x" (.vStr "warn") 0 [.propAssign "'x'" (.strLit "error")]
      rfl rfl (by decide)).1).trans rfl⟩

/-- C10 counterexample: the state's only entry has no literal empty
files array — its files array literal is `[foo]` with a non-string
element — and the config has no files property, yet `addOrUpdateConfig`
merges into that entry (here a no-op merge) instead of appending a new
entry as the claim predicts. -/
theorem C10_counterexample :
    jsGet [("rules", Value.vObj [])] "files" = none
    ∧ addOrUpdateConfig
        [.objectLit [.propAssign "files" (.arrayLit [.ident "foo"]),
          .propAssign "rules" (.objectLit [])]]
        [("rules", .vObj [])]
      = [.objectLit [.propAssign "files" (.arrayLit [.ident "foo"]),
          .propAssign "rules" (.objectLit [])]]
    ∧ (addOrUpdateConfig
        [.objectLit [.propAssign "files" (.arrayLit [.ident "foo"]),
          .propAssign "rules" (.objectLit [])]]
        [("rules", .vObj [])]).length = 1 :=
  ⟨rfl, rfl, rfl⟩

/-- C10 amended: a call with no files property matches exactly the
entries whose files array literal contains no string-literal elements
(a literal empty files array being the common case); when no such entry
exists the call appends a new entry — which itself lacks a files
property — so the next identical call appends another duplicate. -/
theorem C10_no_files_upsert_appends :
    ∀ (state : List Expr) (config : List (String × Value)),
      jsGet config "files" = none →
      (∀ e ∈ state, hasNoStringFilePatterns e = false) →
      addOrUpdateConfig state config = state ++ [newConfigExpr config]
      ∧ addOrUpdateConfig (state ++ [newConfigExpr config]) config
          = state ++ [newConfigExpr config, newConfigExpr config] := by
  intro state config hnofiles hstate
  have hcf : configFiles config = [] := by
    unfold configFiles
    rw [hnofiles]
  have hfnone : config.find? (fun f => f.1 == "files") = none := by
    unfold jsGet at hnofiles
    cases hf : config.find? (fun f => f.1 == "files") with
    | none => rfl
    | some f => rw [hf] at hnofiles; cases hnofiles
  have hnew : hasNoStringFilePatterns (newConfigExpr config) = false := by
    unfold hasNoStringFilePatterns newConfigExpr
    simp only [getPropertyM_map_of_find?_none config hfnone]
  have hfind : findConfigByFiles state [] = none := by
    unfold findConfigByFiles
    rw [List.findIdx?_eq_none_iff]
    intro x hx
    rw [matchesFiles_nil x]
    exact hstate x hx
  have hfind2 : findConfigByFiles (state ++ [newConfigExpr config]) [] = none := by
    unfold findConfigByFiles
    rw [List.findIdx?_eq_none_iff]
    intro x hx
    rw [matchesFiles_nil x]
    rcases List.mem_append.mp hx with h | h
    · exact hstate x h
    · rw [List.mem_singleton.mp h]
      exact hnew
  constructor
  · unfold addOrUpdateConfig
    rw [hcf, hfind]
  · unfold addOrUpdateConfig
    rw [hcf, hfind2]
    simp

/-- Witness for C10: repeated no-files upserts on the empty state
append duplicate entries. -/
theorem C10_witness :
    jsGet [("rules", Value.vObj [("x", .vStr "error")])] "files" = none
    ∧ addOrUpdateConfig [] [("rules", .vObj [("x", .vStr "error")])]
      = [newConfigExpr [("rules", .vObj [("x", .vStr "error")])]] :=
  ⟨rfl,
   (C10_no_files_upsert_appends [] [("rules", .vObj [("x", .vStr "error")])] rfl
      (by intro e he; exact absurd he (List.not_mem_nil e))).1⟩

end NxTooling

